import Mathlib

/-!
Verification of the calibration and scale-bar script
src/Computational-Exploration/Chapter-2/EColiSize.py
(Physical Biology of the Cell, Computational Exploration: Sizing Up E. coli).

The script is a linear sequence of array arithmetic.  We embed each of its
computational expressions shallowly:

* pixel positions and intensities become rationals (exact arithmetic stands
  in for Python floats),
* Python float division, which raises ZeroDivisionError on a zero
  denominator, becomes an Option-valued division,
* numpy arrays become total functions together with explicit shape data, and
  numpy slice assignment (which silently clips slices to the array bounds)
  becomes a pointwise guarded update,
* numpy true division of a constant-zero denominator, which yields NaN
  elementwise without raising, is modelled with Option-valued entries
  (none standing for NaN).
-/

namespace EColiSize

/-- Source line `pixels_between_lines = 1299 - 62`: the manual (data-cursor)
pixel distance between the left-most graticule line boundary (x = 62) and the
boundary eight lines later (x = 1299). -/
def pixels_between_lines_manual : ℤ := 1299 - 62

/-- Source line `nm_per_pixel = 1000. * 8 * 10 / pixels_between_lines`
(this exact expression appears twice in the script, once for the manual
distance and once for the click-based distance).  Python float division
raises ZeroDivisionError on a zero denominator, so the embedding returns
none there and some of the quotient otherwise.  The constants are the gap
count 8, the line spacing 10 (micron), and the factor 1000 (nm per micron). -/
def nm_per_pixel (d : ℚ) : Option ℚ :=
  if d = 0 then none else some (1000 * 8 * 10 / d)

/-- Source line `pixels_between_lines = abs(clicks[1][0] - clicks[0][0])`:
the click-based pixel distance.  A click is an (x, y) pair; only the first
components (index 0 in the source) enter the expression. -/
def pixels_between_lines (clicks : (ℚ × ℚ) × (ℚ × ℚ)) : ℚ :=
  |clicks.2.1 - clicks.1.1|

/-- The manual-path calibration value, `nm_per_pixel` applied to the manual
pixel distance. -/
def nm_per_pixel_manual : Option ℚ :=
  nm_per_pixel (pixels_between_lines_manual : ℚ)

/-- C1: for reference pixel x-positions x1 ≠ x2 (captured as the first
components of the two clicks), the calibration returns
(1000 × 8 × 10) / |x2 − x1| nm per pixel, that is, gap count (8) times unit
spacing (10), scaled by 1000, divided by the absolute pixel distance. -/
theorem calibration_formula (x1 x2 y1 y2 : ℚ) (hne : x1 ≠ x2) :
    nm_per_pixel (pixels_between_lines ((x1, y1), (x2, y2)))
      = some (1000 * 8 * 10 / |x2 - x1|) := by
  have hd : |x2 - x1| ≠ 0 := by
    simpa [abs_eq_zero, sub_eq_zero] using (Ne.symm hne)
  simp [nm_per_pixel, pixels_between_lines, hd]

/-- Witness for `calibration_formula` at the script's own reference
positions x1 = 62, x2 = 1299. -/
theorem calibration_formula_witness :
    (62 : ℚ) ≠ 1299 ∧
      nm_per_pixel (pixels_between_lines ((62, 0), (1299, 0)))
        = some (1000 * 8 * 10 / |(1299 : ℚ) - 62|) :=
  ⟨by norm_num, calibration_formula 62 1299 0 0 (by norm_num)⟩

/-- C6: the manual pixel distance is 1299 − 62 = 1237 and the resulting
calibration 1000 × 8 × 10 / 1237 is within 0.01 of 64.67 nm per pixel. -/
theorem manual_calibration_value :
    pixels_between_lines_manual = 1237 ∧
      nm_per_pixel_manual = some (1000 * 8 * 10 / 1237) ∧
      |1000 * 8 * 10 / 1237 - (6467 : ℚ) / 100| ≤ 1 / 100 := by
  refine ⟨by norm_num [pixels_between_lines_manual], ?_, by norm_num [abs_le]⟩
  norm_num [nm_per_pixel_manual, nm_per_pixel, pixels_between_lines_manual]

/-- C7: when the two clicks have equal x-coordinates the measured pixel
distance is zero and the calibration division is unguarded: the embedded
division signals the ZeroDivisionError (none); no other outcome exists. -/
theorem coincident_clicks_divide_by_zero (clicks : (ℚ × ℚ) × (ℚ × ℚ))
    (h : clicks.1.1 = clicks.2.1) :
    pixels_between_lines clicks = 0 ∧
      nm_per_pixel (pixels_between_lines clicks) = none := by
  have h0 : pixels_between_lines clicks = 0 := by
    simp [pixels_between_lines, h]
  exact ⟨h0, by simp [h0, nm_per_pixel]⟩

/-- Witness for `coincident_clicks_divide_by_zero` at two clicks sharing
x = 100 with different y. -/
theorem coincident_clicks_divide_by_zero_witness :
    ((((100 : ℚ), (3 : ℚ)), ((100 : ℚ), (7 : ℚ))).1.1
        = ((((100 : ℚ), (3 : ℚ)), ((100 : ℚ), (7 : ℚ)))).2.1) ∧
      (pixels_between_lines (((100 : ℚ), 3), ((100 : ℚ), 7)) = 0 ∧
        nm_per_pixel (pixels_between_lines (((100 : ℚ), 3), ((100 : ℚ), 7)))
          = none) :=
  ⟨rfl, coincident_clicks_divide_by_zero (((100 : ℚ), 3), ((100 : ℚ), 7)) rfl⟩

/-- C8: the click-based pixel distance and the calibration value depend only
on the x-components of the two clicks: two runs agreeing in x but arbitrary
in y produce equal `pixels_between_lines` and equal `nm_per_pixel`. -/
theorem calibration_ignores_click_y (x1 x2 y1 y2 z1 z2 : ℚ) :
    pixels_between_lines ((x1, y1), (x2, y2))
        = pixels_between_lines ((x1, z1), (x2, z2)) ∧
      nm_per_pixel (pixels_between_lines ((x1, y1), (x2, y2)))
        = nm_per_pixel (pixels_between_lines ((x1, z1), (x2, z2))) :=
  ⟨rfl, rfl⟩

/-- Source expression `np.min(ecoli)`: the least intensity of the image.
The image is modelled as a function on a nonempty finite index type (the
flattened pixel grid); numpy reduces over all entries. -/
def np_min {n : ℕ} (img : Fin (n + 1) → ℚ) : ℚ :=
  Finset.univ.inf' Finset.univ_nonempty img

/-- Source expression `np.max(ecoli)`: the greatest intensity of the image. -/
def np_max {n : ℕ} (img : Fin (n + 1) → ℚ) : ℚ :=
  Finset.univ.sup' Finset.univ_nonempty img

/-- Source line
`ecoli_norm = (ecoli - np.min(ecoli)) / (np.max(ecoli) - np.min(ecoli))`
in exact rational arithmetic, faithful whenever the denominator is nonzero
(the case a constant image escapes this model is treated by
`ecoli_norm_nan` below). -/
def ecoli_norm {n : ℕ} (img : Fin (n + 1) → ℚ) : Fin (n + 1) → ℚ :=
  fun i => (img i - np_min img) / (np_max img - np_min img)

/-- The same source line with numpy float semantics for the degenerate
denominator: when `np.max - np.min` is zero, numpy true division produces
NaN in every entry (emitting only a runtime warning, never an exception);
none models NaN.  The source applies the formula unconditionally — there is
no guard on a constant image. -/
def ecoli_norm_nan {n : ℕ} (img : Fin (n + 1) → ℚ) : Fin (n + 1) → Option ℚ :=
  fun i =>
    if np_max img - np_min img = 0 then none
    else some ((img i - np_min img) / (np_max img - np_min img))

theorem np_min_le {n : ℕ} (img : Fin (n + 1) → ℚ) (i : Fin (n + 1)) :
    np_min img ≤ img i :=
  Finset.inf'_le _ (Finset.mem_univ i)

theorem le_np_max {n : ℕ} (img : Fin (n + 1) → ℚ) (i : Fin (n + 1)) :
    img i ≤ np_max img :=
  Finset.le_sup' _ (Finset.mem_univ i)

/-- C2: on any image whose maximum exceeds its minimum, normalization is the
stated pointwise affine rescaling (same shape by construction), its minimum
is exactly 0, its maximum is exactly 1, every value lies in [0, 1], and the
rescaling is order-preserving in the input values. -/
theorem normalization_correct {n : ℕ} (img : Fin (n + 1) → ℚ)
    (h : np_min img < np_max img) :
    (∀ i, ecoli_norm img i
        = (img i - np_min img) / (np_max img - np_min img)) ∧
      np_min (ecoli_norm img) = 0 ∧
      np_max (ecoli_norm img) = 1 ∧
      (∀ i, 0 ≤ ecoli_norm img i ∧ ecoli_norm img i ≤ 1) ∧
      (∀ i j, img i ≤ img j → ecoli_norm img i ≤ ecoli_norm img j) := by
  have hr : 0 < np_max img - np_min img := sub_pos.mpr h
  have hbd : ∀ i, 0 ≤ ecoli_norm img i ∧ ecoli_norm img i ≤ 1 := by
    intro i
    constructor
    · exact div_nonneg (sub_nonneg.mpr (np_min_le img i)) hr.le
    · exact (div_le_one hr).mpr (by
        have := le_np_max img i
        linarith)
  refine ⟨fun i => rfl, ?_, ?_, hbd, ?_⟩
  · obtain ⟨i0, -, hi0⟩ :=
      Finset.exists_mem_eq_inf' (Finset.univ_nonempty) img
    have hmin0 : ecoli_norm img i0 = 0 := by
      simp [ecoli_norm, ← hi0, np_min]
    refine le_antisymm ?_ ?_
    · calc np_min (ecoli_norm img) ≤ ecoli_norm img i0 :=
            np_min_le (ecoli_norm img) i0
        _ = 0 := hmin0
    · exact Finset.le_inf' _ _ fun b _ => (hbd b).1
  · obtain ⟨i1, -, hi1⟩ :=
      Finset.exists_mem_eq_sup' (Finset.univ_nonempty) img
    have hmax1 : ecoli_norm img i1 = 1 := by
      have : img i1 - np_min img = np_max img - np_min img := by
        rw [← hi1]; rfl
      rw [ecoli_norm, this, div_self hr.ne']
    refine le_antisymm ?_ ?_
    · exact Finset.sup'_le _ _ fun b _ => (hbd b).2
    · calc (1 : ℚ) = ecoli_norm img i1 := hmax1.symm
        _ ≤ np_max (ecoli_norm img) := le_np_max (ecoli_norm img) i1
  · intro i j hij
    exact (div_le_div_iff_of_pos_right hr).mpr (sub_le_sub_right hij _)

/-- Witness for `normalization_correct` at the two-pixel image (0, 2). -/
theorem normalization_correct_witness :
    (np_min ![(0 : ℚ), 2] < np_max ![(0 : ℚ), 2]) ∧
      ((∀ i, ecoli_norm ![(0 : ℚ), 2] i
          = (![(0 : ℚ), 2] i - np_min ![(0 : ℚ), 2])
              / (np_max ![(0 : ℚ), 2] - np_min ![(0 : ℚ), 2])) ∧
        np_min (ecoli_norm ![(0 : ℚ), 2]) = 0 ∧
        np_max (ecoli_norm ![(0 : ℚ), 2]) = 1 ∧
        (∀ i, 0 ≤ ecoli_norm ![(0 : ℚ), 2] i ∧
          ecoli_norm ![(0 : ℚ), 2] i ≤ 1) ∧
        (∀ i j, ![(0 : ℚ), 2] i ≤ ![(0 : ℚ), 2] j →
          ecoli_norm ![(0 : ℚ), 2] i ≤ ecoli_norm ![(0 : ℚ), 2] j)) := by
  have hlt : np_min ![(0 : ℚ), 2] < np_max ![(0 : ℚ), 2] := by decide
  exact ⟨hlt, normalization_correct ![(0 : ℚ), 2] hlt⟩

/-- C4 counterexample: on the constant image with every pixel 5, the
embedded normalization runs to completion and returns the all-NaN array
(none in every entry) — nothing is raised and no degenerate-case flag
exists, contrary to the claim. -/
theorem constant_image_nan_counterexample :
    ecoli_norm_nan (fun _ : Fin 3 => (5 : ℚ)) = fun _ => none := by
  funext i
  simp [ecoli_norm_nan, np_min, np_max]

/-- C4 amended: normalization applies its formula unconditionally; on any
image with max − min = 0 the division by zero silently yields NaN (none) in
every entry, rather than raising or flagging the degenerate case. -/
theorem constant_image_silent_nan {n : ℕ} (img : Fin (n + 1) → ℚ)
    (h : np_max img - np_min img = 0) :
    ecoli_norm_nan img = fun _ => none := by
  funext i
  simp [ecoli_norm_nan, h]

/-- Witness for `constant_image_silent_nan` at the constant image with
every pixel 7. -/
theorem constant_image_silent_nan_witness :
    (np_max (fun _ : Fin 2 => (7 : ℚ)) - np_min (fun _ : Fin 2 => (7 : ℚ))
        = 0) ∧
      ecoli_norm_nan (fun _ : Fin 2 => (7 : ℚ)) = fun _ => none := by
  have h : np_max (fun _ : Fin 2 => (7 : ℚ))
      - np_min (fun _ : Fin 2 => (7 : ℚ)) = 0 := by
    simp [np_max, np_min, Finset.sup'_const, Finset.inf'_const]
  exact ⟨h, constant_image_silent_nan (fun _ => 7) h⟩

/-- Source line `scale_bar_length = 1_000 / nm_per_pixel`: pixels per
micron (the scale factor the spec's overlay section multiplies tick lengths
by).  The calibration value is nonzero on every path that reaches this
line, so plain rational division is faithful here. -/
def scale_bar_length (npp : ℚ) : ℚ := 1000 / npp

/-- Python `int(...)` on a float: truncation toward zero. -/
def pyInt (q : ℚ) : ℤ := if q < 0 then -⌊-q⌋ else ⌊q⌋

/-- Source dict entry `scale_bar_offset['1'] = int(scale_bar_length)`. -/
def scale_bar_offset_1 (sbl : ℚ) : ℤ := pyInt sbl

/-- Source dict entry `scale_bar_offset['5'] = int(5*scale_bar_length)`. -/
def scale_bar_offset_5 (sbl : ℚ) : ℤ := pyInt (5 * sbl)

/-- Source dict entry `scale_bar_offset['10'] = int(10*scale_bar_length)`. -/
def scale_bar_offset_10 (sbl : ℚ) : ℤ := pyInt (10 * sbl)

theorem pyInt_of_nonneg (q : ℚ) (hq : 0 ≤ q) : pyInt q = ⌊q⌋ := by
  rw [pyInt, if_neg (not_lt.mpr hq)]

theorem floor_lt_floor_of_add_one_le (a b : ℚ) (h : a + 1 ≤ b) :
    ⌊a⌋ < ⌊b⌋ := by
  have ha : (⌊a⌋ : ℚ) ≤ a := Int.floor_le a
  have : ⌊a⌋ + 1 ≤ ⌊b⌋ := Int.le_floor.mpr (by push_cast; linarith)
  omega

/-- C5 counterexample: at scale factor 1/10 (which is positive) the offsets
for tick lengths 1 and 5 are both 0, so the three offsets are not strictly
increasing for every positive scale factor, contrary to the claim. -/
theorem scale_bar_offsets_counterexample :
    (0 : ℚ) < 1 / 10 ∧
      scale_bar_offset_1 ((1 : ℚ) / 10) = 0 ∧
      scale_bar_offset_5 ((1 : ℚ) / 10) = 0 ∧
      ¬ scale_bar_offset_1 ((1 : ℚ) / 10)
          < scale_bar_offset_5 ((1 : ℚ) / 10) := by
  refine ⟨by norm_num, ?_, ?_, ?_⟩ <;>
    norm_num [scale_bar_offset_1, scale_bar_offset_5, pyInt,
      Int.floor_eq_zero_iff]

/-- C5 amended: for every scale factor s > 0, each offset is the truncation
(for positive arguments, the floor) of L × s with the same rule for
L = 1, 5, 10; the offsets are monotonically non-decreasing in L, and they
are strictly increasing whenever s ≥ 1/4. -/
theorem scale_bar_offsets_truncation (s : ℚ) (hs : 0 < s) :
    scale_bar_offset_1 s = ⌊(1 : ℚ) * s⌋ ∧
      scale_bar_offset_5 s = ⌊(5 : ℚ) * s⌋ ∧
      scale_bar_offset_10 s = ⌊(10 : ℚ) * s⌋ ∧
      scale_bar_offset_1 s ≤ scale_bar_offset_5 s ∧
      scale_bar_offset_5 s ≤ scale_bar_offset_10 s ∧
      ((1 : ℚ) / 4 ≤ s →
        scale_bar_offset_1 s < scale_bar_offset_5 s ∧
          scale_bar_offset_5 s < scale_bar_offset_10 s) := by
  have e1 : scale_bar_offset_1 s = ⌊s⌋ := pyInt_of_nonneg s hs.le
  have e5 : scale_bar_offset_5 s = ⌊(5 : ℚ) * s⌋ :=
    pyInt_of_nonneg _ (by linarith)
  have e10 : scale_bar_offset_10 s = ⌊(10 : ℚ) * s⌋ :=
    pyInt_of_nonneg _ (by linarith)
  refine ⟨by rw [e1, one_mul], e5, e10, ?_, ?_, fun h4 => ⟨?_, ?_⟩⟩
  · rw [e1, e5]; exact Int.floor_le_floor (by linarith)
  · rw [e5, e10]; exact Int.floor_le_floor (by linarith)
  · rw [e1, e5]; exact floor_lt_floor_of_add_one_le _ _ (by linarith)
  · rw [e5, e10]; exact floor_lt_floor_of_add_one_le _ _ (by linarith)

/-- Witness for `scale_bar_offsets_truncation` at scale factor 2. -/
theorem scale_bar_offsets_truncation_witness :
    (0 : ℚ) < 2 ∧
      (scale_bar_offset_1 2 = ⌊(1 : ℚ) * 2⌋ ∧
        scale_bar_offset_5 2 = ⌊(5 : ℚ) * 2⌋ ∧
        scale_bar_offset_10 2 = ⌊(10 : ℚ) * 2⌋ ∧
        scale_bar_offset_1 2 ≤ scale_bar_offset_5 2 ∧
        scale_bar_offset_5 2 ≤ scale_bar_offset_10 2 ∧
        ((1 : ℚ) / 4 ≤ 2 →
          scale_bar_offset_1 2 < scale_bar_offset_5 2 ∧
            scale_bar_offset_5 2 < scale_bar_offset_10 2)) :=
  ⟨by norm_num, scale_bar_offsets_truncation 2 (by norm_num)⟩

/-- A numpy 2-D array: a shape (rows × cols) and the pixel data.  Entries
at indices outside the shape are carried along but never touched by any
write (numpy slicing never reaches them). -/
structure PyImage where
  rows : ℕ
  cols : ℕ
  data : ℕ → ℕ → ℚ

/-- Extensionality for `PyImage`. -/
theorem PyImage.ext_fields {b c : PyImage} (h1 : b.rows = c.rows)
    (h2 : b.cols = c.cols) (h3 : b.data = c.data) : b = c := by
  cases b; cases c
  cases h1; cases h2; cases h3
  rfl

/-- The numpy slice assignment `a[r0:r1, c0:c1] = v` with nonnegative
bounds: numpy silently clips each slice to the array's extent, so exactly
the entries with r0 ≤ i < min r1 rows and c0 ≤ j < min c1 cols are
written; no bounds error is possible. -/
def setRegion (a : PyImage) (r0 r1 c0 c1 : ℕ) (v : ℚ) : PyImage :=
  { rows := a.rows, cols := a.cols,
    data := fun i j =>
      if r0 ≤ i ∧ i < min r1 a.rows ∧ c0 ≤ j ∧ j < min c1 a.cols then v
      else a.data i j }

/-- Source constant `scale_bar_xL = 1150`. -/
def scale_bar_xL : ℕ := 1150

/-- Source constant `scale_bar_y = 900`. -/
def scale_bar_y : ℕ := 900

/-- Source constant `scale_bar_thickness = 5`. -/
def scale_bar_thickness : ℕ := 5

/-- Source constant `scale_bar_height = 25`. -/
def scale_bar_height : ℕ := 25

/-- The five region-zeroing writes of the overlay block, in source order:
the horizontal bar
`ecoli_norm[scale_bar_y : scale_bar_y+scale_bar_thickness,
scale_bar_xL : 1+scale_bar_xL+scale_bar_offset['10']] = 0`
followed by the four notches at offsets 0, '1', '5', '10' over rows
`scale_bar_y-scale_bar_height : 1+scale_bar_y`.  The three dict values are
passed in as off1, off5, off10. -/
def overlay (off1 off5 off10 : ℕ) (a : PyImage) : PyImage :=
  let a1 := setRegion a scale_bar_y (scale_bar_y + scale_bar_thickness)
    scale_bar_xL (1 + scale_bar_xL + off10) 0
  let a2 := setRegion a1 (scale_bar_y - scale_bar_height) (1 + scale_bar_y)
    scale_bar_xL (1 + scale_bar_xL) 0
  let a3 := setRegion a2 (scale_bar_y - scale_bar_height) (1 + scale_bar_y)
    (scale_bar_xL + off1) (1 + scale_bar_xL + off1) 0
  let a4 := setRegion a3 (scale_bar_y - scale_bar_height) (1 + scale_bar_y)
    (scale_bar_xL + off5) (1 + scale_bar_xL + off5) 0
  setRegion a4 (scale_bar_y - scale_bar_height) (1 + scale_bar_y)
    (scale_bar_xL + off10) (1 + scale_bar_xL + off10) 0

theorem setRegion_rows (a : PyImage) (r0 r1 c0 c1 : ℕ) (v : ℚ) :
    (setRegion a r0 r1 c0 c1 v).rows = a.rows := rfl

theorem setRegion_cols (a : PyImage) (r0 r1 c0 c1 : ℕ) (v : ℚ) :
    (setRegion a r0 r1 c0 c1 v).cols = a.cols := rfl

theorem setRegion_data (a : PyImage) (r0 r1 c0 c1 : ℕ) (v : ℚ) (i j : ℕ) :
    (setRegion a r0 r1 c0 c1 v).data i j
      = if r0 ≤ i ∧ i < min r1 a.rows ∧ c0 ≤ j ∧ j < min c1 a.cols then v
        else a.data i j := rfl

theorem overlay_rows (o1 o5 o10 : ℕ) (a : PyImage) :
    (overlay o1 o5 o10 a).rows = a.rows := rfl

theorem overlay_cols (o1 o5 o10 : ℕ) (a : PyImage) :
    (overlay o1 o5 o10 a).cols = a.cols := rfl

/-- Closed form of the five overlay writes, outermost (last) write first:
a pixel is zeroed when it falls in any of the five (clipped) regions and
keeps its previous value otherwise. -/
theorem overlay_data (off1 off5 off10 : ℕ) (a : PyImage) (i j : ℕ) :
    (overlay off1 off5 off10 a).data i j
      = if scale_bar_y - scale_bar_height ≤ i ∧
            i < min (1 + scale_bar_y) a.rows ∧ scale_bar_xL + off10 ≤ j ∧
            j < min (1 + scale_bar_xL + off10) a.cols then 0
        else if scale_bar_y - scale_bar_height ≤ i ∧
            i < min (1 + scale_bar_y) a.rows ∧ scale_bar_xL + off5 ≤ j ∧
            j < min (1 + scale_bar_xL + off5) a.cols then 0
        else if scale_bar_y - scale_bar_height ≤ i ∧
            i < min (1 + scale_bar_y) a.rows ∧ scale_bar_xL + off1 ≤ j ∧
            j < min (1 + scale_bar_xL + off1) a.cols then 0
        else if scale_bar_y - scale_bar_height ≤ i ∧
            i < min (1 + scale_bar_y) a.rows ∧ scale_bar_xL ≤ j ∧
            j < min (1 + scale_bar_xL) a.cols then 0
        else if scale_bar_y ≤ i ∧
            i < min (scale_bar_y + scale_bar_thickness) a.rows ∧
            scale_bar_xL ≤ j ∧
            j < min (1 + scale_bar_xL + off10) a.cols then 0
        else a.data i j := by
  simp only [overlay, setRegion_data, setRegion_rows, setRegion_cols]

/-- C3 counterexample: on a 1000 × 1200 all-ones image, the horizontal-bar
write with offset 154 has its column slice end 1 + 1150 + 154 = 1305 beyond
the width 1200; the write succeeds anyway, zeroing column 1199 (the last
real column) and leaving everything from column 1200 on untouched — numpy
silently clips, and no bounds error exists, contrary to the claim. -/
theorem horizontal_bar_clips_counterexample :
    1200 < 1 + scale_bar_xL + 154 ∧
      (setRegion (PyImage.mk 1000 1200 fun _ _ => 1) scale_bar_y
          (scale_bar_y + scale_bar_thickness) scale_bar_xL
          (1 + scale_bar_xL + 154) 0).data 902 1199 = 0 ∧
      (setRegion (PyImage.mk 1000 1200 fun _ _ => 1) scale_bar_y
          (scale_bar_y + scale_bar_thickness) scale_bar_xL
          (1 + scale_bar_xL + 154) 0).data 902 1200 = 1 := by
  refine ⟨by norm_num [scale_bar_xL], ?_, ?_⟩ <;>
    norm_num [setRegion, scale_bar_xL, scale_bar_y, scale_bar_thickness]

/-- C3 amended: on any image with at least 905 rows, the horizontal
scale-bar write zeroes exactly the rectangle of rows [900, 905) and columns
[1150, min (1151 + off10) cols) — the full requested rectangle when
1151 + off10 fits the width, and the rectangle silently clipped at the
right image edge (with no bounds error) when it does not — leaving every
other entry unchanged. -/
theorem horizontal_bar_region (off10 : ℕ) (a : PyImage) (i j : ℕ)
    (hrows : 905 ≤ a.rows) :
    (setRegion a scale_bar_y (scale_bar_y + scale_bar_thickness)
        scale_bar_xL (1 + scale_bar_xL + off10) 0).data i j
      = if 900 ≤ i ∧ i < 905 ∧ 1150 ≤ j ∧ j < min (1151 + off10) a.cols
          then 0 else a.data i j := by
  have h905 : min (scale_bar_y + scale_bar_thickness) a.rows = 905 := by
    simpa [scale_bar_y, scale_bar_thickness] using Nat.min_eq_left hrows
  simp only [setRegion, h905]
  norm_num [scale_bar_xL, scale_bar_y, Nat.add_comm]

/-- Witness for `horizontal_bar_region` on a 1000 × 1400 all-ones image at
offset 154 and pixel (902, 1200). -/
theorem horizontal_bar_region_witness :
    905 ≤ (PyImage.mk 1000 1400 fun _ _ => (1 : ℚ)).rows ∧
      (setRegion (PyImage.mk 1000 1400 fun _ _ => (1 : ℚ)) scale_bar_y
          (scale_bar_y + scale_bar_thickness) scale_bar_xL
          (1 + scale_bar_xL + 154) 0).data 902 1200
        = if 900 ≤ 902 ∧ 902 < 905 ∧ 1150 ≤ 1200 ∧
              1200 < min (1151 + 154)
                (PyImage.mk 1000 1400 fun _ _ => (1 : ℚ)).cols
            then 0
          else (PyImage.mk 1000 1400 fun _ _ => (1 : ℚ)).data 902 1200 :=
  ⟨by norm_num, horizontal_bar_region 154 _ 902 1200 (by norm_num)⟩

/-- The in-shape entries of a `PyImage`, row-major, as numpy reductions see
them. -/
def img_vals (a : PyImage) : List ℚ :=
  (List.range a.rows).flatMap fun i =>
    (List.range a.cols).map fun j => a.data i j

/-- Expression `np.min(ecoli)` over the 2-D array model. -/
def img_min (a : PyImage) : ℚ :=
  (img_vals a).foldl min ((img_vals a).headD 0)

/-- Expression `np.max(ecoli)` over the 2-D array model. -/
def img_max (a : PyImage) : ℚ :=
  (img_vals a).foldl max ((img_vals a).headD 0)

/-- Source line
`ecoli_norm = (ecoli - np.min(ecoli)) / (np.max(ecoli) - np.min(ecoli))`
over the 2-D array model: numpy arithmetic on whole arrays allocates a
fresh result array of the same shape; the loaded `ecoli` operand is not
aliased or written. -/
def normalize_image (a : PyImage) : PyImage :=
  { rows := a.rows, cols := a.cols,
    data := fun i j => (a.data i j - img_min a) / (img_max a - img_min a) }

/-- The two arrays alive in the annotation phase of the script: the loaded
target image `ecoli` and the normalized copy `ecoli_norm`. -/
structure ScriptState where
  ecoli : PyImage
  ecoli_norm : PyImage

/-- The overlay block of the script: every one of the five slice
assignments indexes the array `ecoli_norm`, so only that component of the
state changes. -/
def overlay_step (off1 off5 off10 : ℕ) (s : ScriptState) : ScriptState :=
  { ecoli := s.ecoli,
    ecoli_norm := overlay off1 off5 off10 s.ecoli_norm }

/-- The annotation phase end to end: load `ecoli`, allocate the normalized
copy, then run the overlay writes. -/
def script_pipeline (off1 off5 off10 : ℕ) (ecoli : PyImage) : ScriptState :=
  overlay_step off1 off5 off10
    { ecoli := ecoli, ecoli_norm := normalize_image ecoli }

/-- C9: the loaded target array is never modified — normalization allocates
the fresh array `ecoli_norm`, the overlay writes hit only that copy, and at
the end of the procedure the original `ecoli` array is unchanged (and the
annotated array is exactly the overlay applied to the normalized copy). -/
theorem original_image_unchanged (off1 off5 off10 : ℕ) (e : PyImage) :
    (script_pipeline off1 off5 off10 e).ecoli = e ∧
      (script_pipeline off1 off5 off10 e).ecoli_norm
        = overlay off1 off5 off10 (normalize_image e) :=
  ⟨rfl, rfl⟩

/-- C10: the full overlay block is idempotent: running the five
region-zeroing writes twice produces exactly the array produced by running
them once, on every image large enough to contain all the writes. -/
theorem overlay_idempotent (off1 off5 off10 : ℕ) (a : PyImage)
    (hr : 905 ≤ a.rows) (hc : 1151 + off10 ≤ a.cols) :
    overlay off1 off5 off10 (overlay off1 off5 off10 a)
      = overlay off1 off5 off10 a := by
  refine PyImage.ext_fields ?_ ?_ ?_
  · simp only [overlay_rows]
  · simp only [overlay_cols]
  · funext i j
    simp only [overlay_data, overlay_rows, overlay_cols]
    split_ifs <;> rfl

/-- Witness for `overlay_idempotent` on a 1000 × 1400 all-ones image with
the script's own offsets 15, 77, 154. -/
theorem overlay_idempotent_witness :
    905 ≤ (PyImage.mk 1000 1400 fun _ _ => (1 : ℚ)).rows ∧
      1151 + 154 ≤ (PyImage.mk 1000 1400 fun _ _ => (1 : ℚ)).cols ∧
      overlay 15 77 154
          (overlay 15 77 154 (PyImage.mk 1000 1400 fun _ _ => (1 : ℚ)))
        = overlay 15 77 154 (PyImage.mk 1000 1400 fun _ _ => (1 : ℚ)) :=
  ⟨by norm_num, by norm_num,
    overlay_idempotent 15 77 154 _ (by norm_num) (by norm_num)⟩

end EColiSize
